import Mathlib

/-!
Verification development for the per-cell stochastic generative pipeline of the
neoantigen digital-twin simulator (`neoag_dt.cell`): genetic-expression
simulation, antigen-processing (cleavage), competitive peptide-MHC binding and
the cell-factory orchestration.

Modeling conventions, chosen once and used throughout:

* Floating-point scores, probabilities and pseudocounts are embedded as exact
  rationals (`ℚ`); numpy's float tolerance in probability validation becomes
  exact equality.
* Each random draw performed by the source (`np.random.binomial`,
  `np.random.gamma`/`poisson`, `np.random.choice`) is threaded in as an
  explicit oracle argument.  The guarantees numpy gives about the shape of a
  `np.random.choice` sample (number of draws, in-range indices, distinctness
  when sampling without replacement) are captured by the `ValidDraw` /
  `ValidSampler` predicates and assumed where needed.
* Fallible numpy calls are embedded with `Except String`, performing the same
  input validation, in the same order, as numpy's `RandomState` methods.
* Python dictionaries built by comprehensions over domain objects (which
  compare by name) are embedded as insertion-ordered association lists via
  `pyDict`, reproducing the overwrite-on-duplicate-key behavior.
* The mutable attributes `create_cell` writes on the factory object are
  threaded as an explicit `CellFactoryState`.
-/

namespace NeoagDT

/-- Python `int()` applied to a nonnegative-or-negative rational: truncation
toward zero. -/
def pyInt (q : ℚ) : ℤ := if 0 ≤ q then ⌊q⌋ else ⌈q⌉

/-- The epsilon `1e-7` added to binding weights in
`PeptideMHCBindingSimulator._get_bound_peptides`. -/
def npEps : ℚ := 1 / 10000000

/-- Python `max` over a list of rationals: error on an empty sequence,
otherwise a fold of the binary max over the tail. -/
def pyMax (l : List ℚ) : Except String ℚ :=
  match l with
  | [] => .error "max() arg is an empty sequence"
  | x :: xs => .ok (xs.foldl max x)

/-- A Python list comprehension whose body may raise: evaluate left to right,
propagating the first error. -/
def exceptMap {α β : Type} (f : α → Except String β) : List α → Except String (List β)
  | [] => .ok []
  | a :: as =>
    match f a with
    | .error e => .error e
    | .ok b =>
      match exceptMap f as with
      | .error e => .error e
      | .ok bs => .ok (b :: bs)

/-- Like `exceptMap`, but the body also receives the position of the element
(used to address the random draw consumed by each loop iteration). -/
def exceptMapIdx {α β : Type} (f : ℕ → α → Except String β) : ℕ → List α → Except String (List β)
  | _, [] => .ok []
  | i, a :: as =>
    match f i a with
    | .error e => .error e
    | .ok b =>
      match exceptMapIdx f (i + 1) as with
      | .error e => .error e
      | .ok bs => .ok (b :: bs)

/-- Map with the position of each element, starting at index `i`. -/
def mapIdxFrom {α β : Type} (f : ℕ → α → β) : ℕ → List α → List β
  | _, [] => []
  | i, a :: as => f i a :: mapIdxFrom f (i + 1) as

/-- Keep the elements whose position (starting at `i`) is selected by `draw`:
the embedding of `np.where(presented)[0]` followed by fancy indexing. -/
def selectIdx {α : Type} (draw : ℕ → Bool) : ℕ → List α → List α
  | _, [] => []
  | i, a :: as => if draw i then a :: selectIdx draw (i + 1) as else selectIdx draw (i + 1) as

/-- Python `dict` insertion: overwriting an existing key (per `beq`) keeps the
original key object and its position; a new key is appended. -/
def pyDictInsert {α β : Type} (beq : α → α → Bool) (m : List (α × β)) (k : α) (v : β) :
    List (α × β) :=
  if m.any (fun q => beq q.1 k) then m.map (fun q => if beq q.1 k then (q.1, v) else q)
  else m ++ [(k, v)]

/-- Python `dict` built from a list of key-value pairs (the semantics of a
dict comprehension, including duplicate-key overwriting). -/
def pyDict {α β : Type} (beq : α → α → Bool) (l : List (α × β)) : List (α × β) :=
  l.foldl (fun m q => pyDictInsert beq m q.1 q.2) []

/-- The guarantees numpy gives about the index sample underlying one
`np.random.choice(a, size=size, replace=replace, p=p)` call over a population
of `n` elements: `size` draws, all in range, and pairwise-distinct positions
when sampling without replacement. -/
def ValidDraw (n size : ℕ) (replace : Bool) (idxs : List ℕ) : Prop :=
  idxs.length = size ∧ (∀ j ∈ idxs, j < n) ∧ (replace = false → idxs.Nodup)

/-- A sampling oracle `draw n size` that always produces a `ValidDraw` whenever
numpy's own validation would let the call through (`0 < n`, and `size ≤ n` when
sampling without replacement). -/
def ValidSampler (draw : ℕ → ℕ → List ℕ) (replace : Bool) : Prop :=
  ∀ n size, 0 < n → (replace = false → size ≤ n) → ValidDraw n size replace (draw n size)

/-- A family of sampling oracles indexed by call site. -/
def ValidSamplerFamily (draw : ℕ → ℕ → ℕ → List ℕ) (replace : Bool) : Prop :=
  ∀ k, ValidSampler (draw k) replace

/-- Embedding of `np.random.choice(a, size=size, replace=replace, p=p)`: the
input validation performed by numpy's `RandomState.choice`, in source order
(with the float sum tolerance idealized to exact equality), followed by the
sample described by the oracle-provided positions `idxs`. -/
def npChoice {α : Type} (a : List α) (size : ℤ) (replace : Bool) (p : List ℚ)
    (idxs : List ℕ) : Except String (List α) :=
  if a.length = 0 then .error "a must be non-empty"
  else if p.length ≠ a.length then .error "a and p must have same size"
  else if p.any (fun x => decide (x < 0)) then .error "probabilities are not non-negative"
  else if p.sum ≠ 1 then .error "probabilities do not sum to 1"
  else if replace = false ∧ (a.length : ℤ) < size then
    .error "Cannot take a larger sample than population when replace is False"
  else if replace = false ∧ ((p.filter (fun x => decide (0 < x))).length : ℤ) < size then
    .error "Fewer non-zero entries in p than size"
  else if size < 0 then .error "negative dimensions are not allowed"
  else .ok (idxs.filterMap (fun j => a.get? j))

/-- A protein (gene/transcript) record with its expression statistics. -/
structure Protein where
  name : String
  expression_mean : ℚ
  expression_var : ℚ
deriving DecidableEq, Repr

/-- A peptide, identified by its amino-acid sequence. -/
structure Peptide where
  sequence : String
deriving DecidableEq, Repr

/-- An MHC (HLA) allele, linked to the protein record supplying its expression
statistics. -/
structure MHC where
  name : String
  protein : Protein
deriving DecidableEq, Repr

/-- Python `MHC.__eq__`: identity by name. -/
def beqMHC (x y : MHC) : Bool := x.name == y.name

/-- A somatic variant with its four read counts, optional explicit VAF, source
protein and derived peptides. -/
structure SomaticVariant where
  name : String
  dna_ref_count : ℕ
  dna_alt_count : ℕ
  rna_ref_count : ℕ
  rna_alt_count : ℕ
  vaf : Option ℚ
  protein : Protein
  peptides : List Peptide
deriving DecidableEq, Repr

/-- Python `SomaticVariant.__eq__`: identity by name. -/
def beqSomaticVariant (x y : SomaticVariant) : Bool := x.name == y.name

/-- `SomaticVariant.calculate_vaf_dna`: the explicit VAF if set, otherwise
`dna_alt / (dna_ref + dna_alt)`, with `0` for a zero denominator. -/
def SomaticVariant.calculate_vaf_dna (v : SomaticVariant) : ℚ :=
  match v.vaf with
  | some q => q
  | none =>
    if v.dna_ref_count + v.dna_alt_count = 0 then 0
    else (v.dna_alt_count : ℚ) / ((v.dna_ref_count + v.dna_alt_count : ℕ) : ℚ)

/-- `SomaticVariant.calculate_vaf_rna`: the explicit VAF if set, otherwise
`rna_alt / (rna_ref + rna_alt)`, with `0` for a zero denominator. -/
def SomaticVariant.calculate_vaf_rna (v : SomaticVariant) : ℚ :=
  match v.vaf with
  | some q => q
  | none =>
    if v.rna_ref_count + v.rna_alt_count = 0 then 0
    else (v.rna_alt_count : ℚ) / ((v.rna_ref_count + v.rna_alt_count : ℕ) : ℚ)

/-- A score cache keyed by (allele name, peptide sequence). -/
structure AlleleScoreCache where
  score_cache : List ((String × String) × ℚ)
  name : String
deriving DecidableEq, Repr

/-- `AlleleScoreCache.get_score_strings`: dictionary lookup with default `0`. -/
def AlleleScoreCache.get_score_strings (c : AlleleScoreCache)
    (allele_name peptide_sequence : String) : ℚ :=
  match c.score_cache.find? (fun q => decide (q.1 = (allele_name, peptide_sequence))) with
  | some q => q.2
  | none => 0

/-- `AlleleScoreCache.get_score`: lookup by allele and peptide objects, keyed by
their name and sequence, with default `0`. -/
def AlleleScoreCache.get_score (c : AlleleScoreCache) (allele : MHC) (peptide : Peptide) : ℚ :=
  match c.score_cache.find? (fun q => decide (q.1 = (allele.name, peptide.sequence))) with
  | some q => q.2
  | none => 0

/-- `AlleleScoreCache.get_maximum_peptide_score`: Python `max` of the scores of
one peptide across the given alleles (raises on an empty allele list). -/
def AlleleScoreCache.get_maximum_peptide_score (c : AlleleScoreCache) (peptide : Peptide)
    (alleles : List MHC) : Except String ℚ :=
  pyMax (alleles.map (fun allele => c.get_score allele peptide))

/-- A peptide-MHC complex. -/
structure pMHC where
  peptide : Peptide
  hla : MHC
deriving DecidableEq, Repr

/-- The result of the genetic simulator for one variant. -/
structure GeneticSimulationResult where
  variant_in_dna : Bool
  protein_count : ℤ
deriving DecidableEq, Repr

/-- `dt_utils.sample_binomial` with `n_samples = 1`: numpy validates the
success probability and otherwise the draw is pure randomness, supplied by the
oracle `draw`. -/
def sample_binomial (p : ℚ) (draw : ℚ → ℕ) : Except String ℕ :=
  if p < 0 ∨ 1 < p then .error "p < 0, p > 1 or p is NaN"
  else .ok (draw p)

/-- `dt_utils.sample_gamma_poisson`: a Gamma-Poisson mixture draw for the given
mean and variance, supplied by the oracle `draw` applied to exactly those
parameters. -/
def sample_gamma_poisson (mean var : ℚ) (draw : ℚ → ℚ → ℕ) : ℕ := draw mean var

/-- `GeneticSimulator` configuration. -/
structure GeneticSimulator where
  sequencing_pseudocount : ℚ
  expression_pseudocount : ℚ
  name : String
deriving Repr

/-- `GeneticSimulator.simulate`: Bernoulli draw on the DNA VAF; when the
variant is in the DNA, a Gamma-Poisson protein-count draw at
`(expression_mean + expression_pseudocount, expression_var)` scaled by the RNA
VAF and truncated to an integer; otherwise a zero protein count. -/
def GeneticSimulator.simulate (gs : GeneticSimulator) (variant : SomaticVariant)
    (dnaDraw : ℚ → ℕ) (gpDraw : ℚ → ℚ → ℕ) : Except String GeneticSimulationResult :=
  (sample_binomial variant.calculate_vaf_dna dnaDraw).map (fun b =>
    let variant_in_dna := decide (b = 1)
    let protein_count : ℤ :=
      if variant_in_dna then
        pyInt ((sample_gamma_poisson
            (variant.protein.expression_mean + gs.expression_pseudocount)
            variant.protein.expression_var gpDraw : ℚ) * variant.calculate_vaf_rna)
      else 0
    ⟨variant_in_dna, protein_count⟩)

/-- `GeneticSimulator.simulate_all`: one independent simulation per variant of
the variant map, collected into a dict keyed by the variant (name identity). -/
def GeneticSimulator.simulate_all (gs : GeneticSimulator)
    (variants : List (String × SomaticVariant))
    (dnaDraw : ℕ → ℚ → ℕ) (gpDraw : ℕ → ℚ → ℚ → ℕ) :
    Except String (List (SomaticVariant × GeneticSimulationResult)) :=
  (exceptMapIdx (fun i nv =>
      (gs.simulate nv.2 (dnaDraw i) (gpDraw i)).map (fun r => (nv.2, r))) 0 variants).map
    (fun pairs => pyDict beqSomaticVariant pairs)

/-- `ProteinCleaver` configuration. -/
structure ProteinCleaver where
  cleavage_scores : AlleleScoreCache
  name : String
deriving Repr

/-- The per-peptide cleavage weights: for each candidate peptide, the maximum
presentation score across the given alleles. -/
def ProteinCleaver.cleaveWeights (pc : ProteinCleaver) (peptides : List Peptide)
    (hla_alleles : List MHC) : Except String (List ℚ) :=
  exceptMap (fun pep => pc.cleavage_scores.get_maximum_peptide_score pep hla_alleles) peptides

/-- `ProteinCleaver.cleave`: normalize the cleavage weights by their total and
draw `num_proteins` peptides with replacement via `np.random.choice`. -/
def ProteinCleaver.cleave (pc : ProteinCleaver) (peptides : List Peptide)
    (hla_alleles : List MHC) (num_proteins : ℤ) (draw : ℕ → ℕ → List ℕ) :
    Except String (List Peptide) :=
  (pc.cleaveWeights peptides hla_alleles).bind (fun peptide_weights =>
    let total_weight := peptide_weights.sum
    let normalized := peptide_weights.map (fun w => w / total_weight)
    npChoice peptides num_proteins true normalized (draw peptides.length num_proteins.toNat))

/-- The first-weight nudge `weights[0] += 1 - sum(weights)` performed by the
binding simulator to absorb float rounding after normalization. -/
def adjustFirstWeight : List ℚ → List ℚ
  | [] => []
  | w :: ws => (w + (1 - (w :: ws).sum)) :: ws

/-- `PeptideMHCBindingSimulator` configuration. -/
structure PeptideMHCBindingSimulator where
  binding_scores : AlleleScoreCache
  name : String
deriving Repr

/-- `PeptideMHCBindingSimulator._get_bound_peptides`: for a non-empty pool,
weight each peptide by its binding score plus epsilon, normalize, nudge the
first weight, cap the draw count at the pool size and sample without
replacement; an empty pool contributes no complexes. -/
def PeptideMHCBindingSimulator._get_bound_peptides (sim : PeptideMHCBindingSimulator)
    (peptides : List Peptide) (hla_allele : MHC) (num_hla_molecules : ℕ)
    (draw : ℕ → ℕ → List ℕ) : Except String (List pMHC) :=
  if peptides.length ≠ 0 then
    let peptide_weights := peptides.map
      (fun pep => sim.binding_scores.get_score hla_allele pep + npEps)
    let total_weight := peptide_weights.sum
    let normalized := peptide_weights.map (fun w => w / total_weight)
    let renormalized :=
      if normalized.any (fun w => decide (w ≠ 0)) then adjustFirstWeight normalized
      else normalized
    let n := if peptides.length < num_hla_molecules then peptides.length else num_hla_molecules
    (npChoice peptides (n : ℤ) false renormalized (draw peptides.length n)).map
      (fun bound => bound.map (fun pep => ⟨pep, hla_allele⟩))
  else .ok []

/-- `PeptideMHCBindingSimulator.get_bound_peptide_hla_complexes`: an
independent per-allele binding competition over the full pool, concatenated
across the alleles of the HLA-count dict. -/
def PeptideMHCBindingSimulator.get_bound_peptide_hla_complexes
    (sim : PeptideMHCBindingSimulator) (peptides : List Peptide)
    (hla_counts : List (MHC × ℕ)) (draw : ℕ → ℕ → ℕ → List ℕ) :
    Except String (List pMHC) :=
  (exceptMapIdx (fun i hc => sim._get_bound_peptides peptides hc.1 hc.2 (draw i))
      0 hla_counts).map (fun bound_lists => bound_lists.flatten)

/-- A simulated cancer cell: all fields are written once by the factory. -/
structure Cell where
  genetic_simulation_results : List (SomaticVariant × GeneticSimulationResult)
  selected_peptides : List Peptide
  hla_counts : List (MHC × ℕ)
  bound_peptide_hlas : List pMHC
  presented_peptide_hlas : List pMHC
  name : Option String
deriving DecidableEq, Repr

/-- The mutable attributes `CellFactory.create_cell` writes on the factory
object itself (`self.genetic_simulation_results`, `self.selected_peptides`,
`self.hla_counts`, `self.bound_peptides`, `self.presented_peptides`).  They are
absent (`none`) before the first call. -/
structure CellFactoryState where
  genetic_simulation_results : Option (List (SomaticVariant × GeneticSimulationResult))
  selected_peptides : Option (List Peptide)
  hla_counts : Option (List (MHC × ℕ))
  bound_peptides : Option (List pMHC)
  presented_peptides : Option (List pMHC)
deriving DecidableEq, Repr

/-- The factory state of a freshly constructed `CellFactory`. -/
def CellFactoryState.initial : CellFactoryState := ⟨none, none, none, none, none⟩

/-- `CellFactory` configuration (the immutable constructor arguments). -/
structure CellFactory where
  genetic_simulator : GeneticSimulator
  protein_cleaver : ProteinCleaver
  binding_simulator : PeptideMHCBindingSimulator
  presentation_scores : AlleleScoreCache
  expression_pseudocount : ℚ
  name : String
deriving Repr

/-- The random draws consumed by one `create_cell` run, indexed by call site:
per-variant DNA and Gamma-Poisson draws, per-variant cleavage index samples,
per-allele HLA-abundance draws, per-allele binding index samples, and
per-complex presentation coin flips. -/
structure RandomSource where
  dnaDraw : ℕ → ℚ → ℕ
  gpDraw : ℕ → ℚ → ℚ → ℕ
  cleaveDraw : ℕ → ℕ → ℕ → List ℕ
  hlaDraw : ℕ → ℚ → ℚ → ℕ
  bindDraw : ℕ → ℕ → ℕ → List ℕ
  presentDraw : ℕ → Bool

/-- `CellFactory._get_selected_peptides`: cleave one variant's peptides with a
yield equal to its simulated protein count. -/
def CellFactory._get_selected_peptides (cf : CellFactory) (variant : SomaticVariant)
    (simulation_result : GeneticSimulationResult) (hla_alleles : List MHC)
    (draw : ℕ → ℕ → List ℕ) : Except String (List Peptide) :=
  cf.protein_cleaver.cleave variant.peptides hla_alleles simulation_result.protein_count draw

/-- `CellFactory._get_all_selected_peptides`: cleave every variant of the
genetic-simulation results and flatten the yields into one candidate pool. -/
def CellFactory._get_all_selected_peptides (cf : CellFactory)
    (results : List (SomaticVariant × GeneticSimulationResult)) (hla_alleles : List MHC)
    (draw : ℕ → ℕ → ℕ → List ℕ) : Except String (List Peptide) :=
  (exceptMapIdx (fun i vr => cf._get_selected_peptides vr.1 vr.2 hla_alleles (draw i))
      0 results).map (fun selected_lists => selected_lists.flatten)

/-- `CellFactory._get_hla_counts`: sample each allele's molecule abundance from
the Gamma-Poisson model at `(expression_mean + expression_pseudocount,
expression_var)`, collected into a dict keyed by the allele (name identity). -/
def CellFactory._get_hla_counts (cf : CellFactory) (hla_alleles : List MHC)
    (draw : ℕ → ℚ → ℚ → ℕ) : List (MHC × ℕ) :=
  pyDict beqMHC (mapIdxFrom (fun i hla =>
    (hla, sample_gamma_poisson
      (hla.protein.expression_mean + cf.expression_pseudocount)
      hla.protein.expression_var (draw i))) 0 hla_alleles)

/-- `CellFactory._get_presented_peptide_hla_complexes`: one independent
Bernoulli trial per bound complex at its presentation score (numpy validates
the whole probability vector first), keeping the successes in order. -/
def CellFactory._get_presented_peptide_hla_complexes (cf : CellFactory)
    (bound_peptide_hla_complexes : List pMHC) (draw : ℕ → Bool) :
    Except String (List pMHC) :=
  let presentation_likelihoods := bound_peptide_hla_complexes.map
    (fun c => cf.presentation_scores.get_score c.hla c.peptide)
  if presentation_likelihoods.any (fun p => decide (p < 0 ∨ 1 < p)) then
    .error "p < 0, p > 1 or p is NaN"
  else .ok (selectIdx draw 0 bound_peptide_hla_complexes)

/-- `CellFactory.create_cell`: the orchestrator.  Each stage writes its result
onto the factory state (as the source writes `self.*` attributes) and the next
stage reads it back from there. -/
def CellFactory.create_cell (cf : CellFactory) (state : CellFactoryState) (rs : RandomSource)
    (variant_map : List (String × SomaticVariant)) (hla_alleles : List MHC)
    (name : Option String) : Except String (Cell × CellFactoryState) :=
  (cf.genetic_simulator.simulate_all variant_map rs.dnaDraw rs.gpDraw).bind (fun gsr =>
    let state := { state with genetic_simulation_results := some gsr }
    (cf._get_all_selected_peptides (state.genetic_simulation_results.getD [])
        hla_alleles rs.cleaveDraw).bind (fun sel =>
      let state := { state with selected_peptides := some sel }
      let counts := cf._get_hla_counts hla_alleles rs.hlaDraw
      let state := { state with hla_counts := some counts }
      (cf.binding_simulator.get_bound_peptide_hla_complexes
          (state.selected_peptides.getD []) (state.hla_counts.getD []) rs.bindDraw).bind
        (fun bound =>
          let state := { state with bound_peptides := some bound }
          (cf._get_presented_peptide_hla_complexes (state.bound_peptides.getD [])
              rs.presentDraw).map (fun presented =>
            let state := { state with presented_peptides := some presented }
            let cell : Cell :=
              { genetic_simulation_results := state.genetic_simulation_results.getD []
                selected_peptides := state.selected_peptides.getD []
                hla_counts := state.hla_counts.getD []
                bound_peptide_hlas := state.bound_peptides.getD []
                presented_peptide_hlas := state.presented_peptides.getD []
                name := name }
            (cell, state)))))

/-! Helper lemmas about the embedding combinators. -/

theorem sum_map_div (l : List ℚ) (c : ℚ) : (l.map (fun x => x / c)).sum = l.sum / c := by
  induction l with
  | nil => simp
  | cons x xs ih => simp [ih, add_div]

theorem length_filterMap_get {α : Type} (l : List α) (idxs : List ℕ)
    (h : ∀ j ∈ idxs, j < l.length) :
    (idxs.filterMap (fun j => l.get? j)).length = idxs.length := by
  induction idxs with
  | nil => simp
  | cons j js ih =>
    have hj : j < l.length := h j (List.mem_cons_self _ _)
    rw [List.filterMap_cons, List.get?_eq_get hj]
    simp only [List.length_cons]
    rw [ih (fun k hk => h k (List.mem_cons_of_mem _ hk))]

theorem mem_of_filterMap_get {α : Type} {l : List α} {idxs : List ℕ} {x : α}
    (h : x ∈ idxs.filterMap (fun j => l.get? j)) : x ∈ l := by
  rcases List.mem_filterMap.1 h with ⟨j, _, hj⟩
  exact List.get?_mem hj

theorem selectIdx_sublist {α : Type} (draw : ℕ → Bool) :
    ∀ (i : ℕ) (l : List α), List.Sublist (selectIdx draw i l) l := by
  intro i l
  induction l generalizing i with
  | nil => simp [selectIdx]
  | cons a as ih =>
    rw [selectIdx]
    by_cases hd : draw i
    · rw [if_pos hd]
      exact List.Sublist.cons₂ a (ih (i + 1))
    · rw [if_neg hd]
      exact List.Sublist.cons a (ih (i + 1))

theorem exceptMapIdx_ok_forall2 {α β : Type} {f : ℕ → α → Except String β} :
    ∀ {i : ℕ} {l : List α} {bs : List β}, exceptMapIdx f i l = .ok bs →
      List.Forall₂ (fun a b => ∃ k, f k a = .ok b) l bs := by
  intro i l
  induction l generalizing i with
  | nil =>
    intro bs h
    rw [exceptMapIdx] at h
    cases h
    exact List.Forall₂.nil
  | cons a as ih =>
    intro bs h
    rw [exceptMapIdx] at h
    cases hfa : f i a with
    | error e => rw [hfa] at h; cases h
    | ok b =>
      rw [hfa] at h
      cases hrec : exceptMapIdx f (i + 1) as with
      | error e => rw [hrec] at h; cases h
      | ok bs0 =>
        rw [hrec] at h
        cases h
        exact List.Forall₂.cons ⟨i, hfa⟩ (ih hrec)

theorem exceptMapIdx_ok_of_mem {α β : Type} {f : ℕ → α → Except String β} {g : ℕ → α → β}
    {l : List α} (h : ∀ a ∈ l, ∀ k, f k a = Except.ok (g k a)) :
    ∀ i : ℕ, exceptMapIdx f i l = .ok (mapIdxFrom g i l) := by
  induction l with
  | nil => intro i; rw [exceptMapIdx, mapIdxFrom]
  | cons a as ih =>
    intro i
    rw [exceptMapIdx, mapIdxFrom, h a (List.mem_cons_self _ _) i,
      ih (fun b hb => h b (List.mem_cons_of_mem _ hb))]

theorem mapIdxFrom_mem {α β : Type} {f : ℕ → α → β} :
    ∀ {i : ℕ} {l : List α} {b : β}, b ∈ mapIdxFrom f i l → ∃ j a, a ∈ l ∧ b = f j a := by
  intro i l
  induction l generalizing i with
  | nil => intro b h; rw [mapIdxFrom] at h; cases h
  | cons a as ih =>
    intro b h
    rw [mapIdxFrom] at h
    rcases List.mem_cons.1 h with rfl | h2
    · exact ⟨i, a, List.mem_cons_self _ _, rfl⟩
    · rcases ih h2 with ⟨j, x, hx, hbx⟩
      exact ⟨j, x, List.mem_cons_of_mem _ hx, hbx⟩

theorem forall2_mem_right {α β : Type} {R : α → β → Prop} {l : List α} {bs : List β} {b : β}
    (h : List.Forall₂ R l bs) (hb : b ∈ bs) : ∃ a ∈ l, R a b := by
  induction h with
  | nil => cases hb
  | cons hr _ ih =>
    rcases List.mem_cons.1 hb with rfl | hb2
    · exact ⟨_, List.mem_cons_self _ _, hr⟩
    · rcases ih hb2 with ⟨a, ha, hra⟩
      exact ⟨a, List.mem_cons_of_mem _ ha, hra⟩

theorem flatten_length_le_sum {α β : Type} {w : α → ℕ} {l : List α} {bs : List (List β)}
    (h : List.Forall₂ (fun a b => b.length ≤ w a) l bs) :
    bs.flatten.length ≤ (l.map w).sum := by
  induction h with
  | nil => simp
  | cons hr _ ih =>
    simp only [List.flatten_cons, List.length_append, List.map_cons, List.sum_cons]
    exact Nat.add_le_add hr ih

theorem pyDictInsert_key_mem {α β : Type} (beq : α → α → Bool) (m : List (α × β)) (k : α)
    (v : β) (q : α × β) (hq : q ∈ pyDictInsert beq m k v) :
    (∃ w, (q.1, w) ∈ m) ∨ q.1 = k := by
  unfold pyDictInsert at hq
  by_cases hb : m.any (fun r => beq r.1 k)
  · rw [if_pos hb] at hq
    rcases List.mem_map.1 hq with ⟨r, hr, hre⟩
    by_cases hbr : beq r.1 k
    · rw [if_pos hbr] at hre
      left
      refine ⟨r.2, ?_⟩
      have : q.1 = r.1 := by rw [← hre]
      rw [this]
      exact hr
    · rw [if_neg hbr] at hre
      left
      exact ⟨q.2, hre ▸ hr⟩
  · rw [if_neg hb] at hq
    rcases List.mem_append.1 hq with h | h
    · left; exact ⟨q.2, h⟩
    · right
      have : q = (k, v) := by simpa using h
      rw [this]

theorem pyDict_key_mem_aux {α β : Type} (beq : α → α → Bool) :
    ∀ (l acc : List (α × β)) (q : α × β),
      q ∈ l.foldl (fun m r => pyDictInsert beq m r.1 r.2) acc →
      (∃ w, (q.1, w) ∈ acc) ∨ (∃ w, (q.1, w) ∈ l) := by
  intro l
  induction l with
  | nil =>
    intro acc q h
    left
    exact ⟨q.2, by simpa using h⟩
  | cons r rs ih =>
    intro acc q h
    simp only [List.foldl_cons] at h
    rcases ih _ q h with hacc | hl
    · rcases hacc with ⟨w, hw⟩
      rcases pyDictInsert_key_mem beq acc r.1 r.2 (q.1, w) hw with h1 | h1
      · left; exact h1
      · right
        refine ⟨r.2, ?_⟩
        simp only at h1
        rw [h1]
        exact List.mem_cons_self _ _
    · rcases hl with ⟨w, hw⟩
      exact Or.inr ⟨w, List.mem_cons_of_mem _ hw⟩

theorem pyDict_key_mem {α β : Type} (beq : α → α → Bool) (l : List (α × β)) (q : α × β)
    (hq : q ∈ pyDict beq l) : ∃ w, (q.1, w) ∈ l := by
  rcases pyDict_key_mem_aux beq l [] q hq with h | h
  · rcases h with ⟨w, hw⟩; cases hw
  · exact h

theorem npChoice_ok {α : Type} {a : List α} {size : ℤ} {replace : Bool} {p : List ℚ}
    {idxs : List ℕ} {l : List α} (h : npChoice a size replace p idxs = .ok l) :
    l = idxs.filterMap (fun j => a.get? j) := by
  unfold npChoice at h
  repeat' split at h
  all_goals cases h <;> rfl

theorem exceptMapOkIff {γ δ : Type} {e : Except String γ} {f : γ → δ} {b : δ} :
    e.map f = .ok b ↔ ∃ a, e = .ok a ∧ b = f a := by
  cases e with
  | error err => simp [Except.map]
  | ok a => simp [Except.map, eq_comm]

theorem exceptBindOkIff {γ δ : Type} {e : Except String γ} {f : γ → Except String δ} {b : δ} :
    e.bind f = .ok b ↔ ∃ a, e = .ok a ∧ f a = .ok b := by
  cases e with
  | error err => simp [Except.bind]
  | ok a => simp [Except.bind]

theorem npChoice_ok_of_valid {α : Type} {a : List α} {size : ℤ} {replace : Bool} {p : List ℚ}
    (idxs : List ℕ)
    (hlen : a.length ≠ 0)
    (hp : p.length = a.length)
    (hnn : ∀ x ∈ p, 0 ≤ x)
    (hsum : p.sum = 1)
    (hsize : 0 ≤ size)
    (hrep : replace = false →
      size ≤ (a.length : ℤ) ∧ size ≤ ((p.filter (fun x => decide (0 < x))).length : ℤ)) :
    npChoice a size replace p idxs = .ok (idxs.filterMap (fun j => a.get? j)) := by
  have hneg : ¬ (p.any (fun x => decide (x < 0)) = true) := by
    simp only [List.any_eq_true, decide_eq_true_eq, not_exists, not_and, not_lt]
    exact fun x hx => hnn x hx
  unfold npChoice
  rw [if_neg hlen, if_neg (by simp [hp]), if_neg hneg, if_neg (by simp [hsum]),
    if_neg (fun hc => absurd (hrep hc.1).1 (not_le.2 hc.2)),
    if_neg (fun hc => absurd (hrep hc.1).2 (not_le.2 hc.2)),
    if_neg (not_lt.2 hsize)]

theorem adjustFirstWeight_of_sum_one {l : List ℚ} (h : l.sum = 1) : adjustFirstWeight l = l := by
  cases l with
  | nil => rfl
  | cons x xs =>
    rw [adjustFirstWeight, h]
    norm_num

theorem if_lt_eq_min (a b : ℕ) : (if a < b then a else b) = min a b := by
  split <;> omega

/-! Characterization lemmas for the per-allele binding competition. -/

theorem getBound_ok_of_valid (sim : PeptideMHCBindingSimulator) (peptides : List Peptide)
    (hla : MHC) (num : ℕ) (draw : ℕ → ℕ → List ℕ)
    (hne : peptides ≠ [])
    (hscores : ∀ pep ∈ peptides, 0 ≤ sim.binding_scores.get_score hla pep) :
    sim._get_bound_peptides peptides hla num draw =
      .ok (((draw peptides.length (min peptides.length num)).filterMap
        (fun j => peptides.get? j)).map (fun pep => ⟨pep, hla⟩)) := by
  have hlen : peptides.length ≠ 0 := fun hc => hne (List.length_eq_zero.1 hc)
  have hwpos : ∀ x ∈ peptides.map
      (fun pep => sim.binding_scores.get_score hla pep + npEps), 0 < x := by
    intro x hx
    rcases List.mem_map.1 hx with ⟨pep, hpep, rfl⟩
    have : (0:ℚ) < npEps := by norm_num [npEps]
    linarith [hscores pep hpep]
  set weights := peptides.map (fun pep => sim.binding_scores.get_score hla pep + npEps)
    with hweights
  have hwne : weights ≠ [] := by
    intro hc
    apply hne
    have := congrArg List.length hc
    simpa [hweights] using this
  have htot : 0 < weights.sum := List.sum_pos weights hwpos hwne
  have hnorm_sum : (weights.map (fun w => w / weights.sum)).sum = 1 := by
    rw [sum_map_div]
    exact div_self htot.ne'
  have hnorm_pos : ∀ x ∈ weights.map (fun w => w / weights.sum), 0 < x := by
    intro x hx
    rcases List.mem_map.1 hx with ⟨w, hw, rfl⟩
    exact div_pos (hwpos w hw) htot
  have hnorm_ne : weights.map (fun w => w / weights.sum) ≠ [] := by
    simpa using hwne
  have hany : (weights.map (fun w => w / weights.sum)).any
      (fun w => decide (w ≠ 0)) = true := by
    rw [List.any_eq_true]
    rcases List.exists_mem_of_ne_nil _ hnorm_ne with ⟨x, hx⟩
    exact ⟨x, hx, by simpa using (hnorm_pos x hx).ne'⟩
  have hlenmap : (weights.map (fun w => w / weights.sum)).length = peptides.length := by
    simp [hweights]
  rw [PeptideMHCBindingSimulator._get_bound_peptides, if_pos hlen]
  simp only [← hweights, hany, if_true, if_lt_eq_min]
  rw [adjustFirstWeight_of_sum_one hnorm_sum]
  rw [npChoice_ok_of_valid _ hlen hlenmap (fun x hx => (hnorm_pos x hx).le) hnorm_sum
    (by positivity)
    (fun _ => ⟨by simp [Int.ofNat_le, Nat.min_le_left], by
      rw [List.filter_eq_self.2 (fun x hx => by simpa using hnorm_pos x hx)]
      simp only [hlenmap, Int.ofNat_le]
      exact_mod_cast Nat.min_le_left _ _⟩)]
  rfl

theorem getBound_ok_inv {sim : PeptideMHCBindingSimulator} {peptides : List Peptide}
    {hla : MHC} {num : ℕ} {draw : ℕ → ℕ → List ℕ} {l : List pMHC}
    (h : sim._get_bound_peptides peptides hla num draw = .ok l) :
    (peptides.length = 0 ∧ l = []) ∨
    (peptides.length ≠ 0 ∧
      l = ((draw peptides.length (min peptides.length num)).filterMap
        (fun j => peptides.get? j)).map (fun pep => (⟨pep, hla⟩ : pMHC))) := by
  rw [PeptideMHCBindingSimulator._get_bound_peptides] at h
  by_cases hl : peptides.length ≠ 0
  · rw [if_pos hl] at h
    rcases exceptMapOkIff.1 h with ⟨bound, hb, rfl⟩
    refine Or.inr ⟨hl, ?_⟩
    rw [npChoice_ok hb, if_lt_eq_min]
  · rw [if_neg hl] at h
    cases h
    exact Or.inl ⟨by omega, rfl⟩

theorem getBound_mem {sim : PeptideMHCBindingSimulator} {peptides : List Peptide}
    {hla : MHC} {num : ℕ} {draw : ℕ → ℕ → List ℕ} {l : List pMHC}
    (h : sim._get_bound_peptides peptides hla num draw = .ok l) :
    ∀ c ∈ l, c.peptide ∈ peptides ∧ c.hla = hla := by
  intro c hc
  rcases getBound_ok_inv h with ⟨_, rfl⟩ | ⟨_, rfl⟩
  · cases hc
  · rcases List.mem_map.1 hc with ⟨pep, hpep, rfl⟩
    exact ⟨mem_of_filterMap_get hpep, rfl⟩

theorem getBound_length {sim : PeptideMHCBindingSimulator} {peptides : List Peptide}
    {hla : MHC} {num : ℕ} {draw : ℕ → ℕ → List ℕ} {l : List pMHC}
    (hdraw : ValidSampler draw false)
    (h : sim._get_bound_peptides peptides hla num draw = .ok l) :
    l.length ≤ num := by
  rcases getBound_ok_inv h with ⟨_, rfl⟩ | ⟨hne, rfl⟩
  · simp
  · have hlenpos : 0 < peptides.length := by omega
    have hvalid := hdraw peptides.length (min peptides.length num) hlenpos
      (fun _ => Nat.min_le_left _ _)
    rw [List.length_map]
    calc ((draw peptides.length (min peptides.length num)).filterMap
          (fun j => peptides.get? j)).length
        ≤ (draw peptides.length (min peptides.length num)).length :=
          List.length_filterMap_le _ _
      _ = min peptides.length num := hvalid.1
      _ ≤ num := Nat.min_le_right _ _

/-! Characterization lemmas for cleavage. -/

theorem exceptMap_ok_forall2 {α β : Type} {f : α → Except String β} :
    ∀ {l : List α} {bs : List β}, exceptMap f l = .ok bs →
      List.Forall₂ (fun a b => f a = .ok b) l bs := by
  intro l
  induction l with
  | nil =>
    intro bs h
    rw [exceptMap] at h
    cases h
    exact List.Forall₂.nil
  | cons a as ih =>
    intro bs h
    rw [exceptMap] at h
    cases hfa : f a with
    | error e => rw [hfa] at h; cases h
    | ok b =>
      rw [hfa] at h
      cases hrec : exceptMap f as with
      | error e => rw [hrec] at h; cases h
      | ok bs0 =>
        rw [hrec] at h
        cases h
        exact List.Forall₂.cons hfa (ih hrec)

theorem cleaveWeights_ok_length {pc : ProteinCleaver} {peptides : List Peptide}
    {hla_alleles : List MHC} {ws : List ℚ}
    (h : pc.cleaveWeights peptides hla_alleles = .ok ws) : ws.length = peptides.length :=
  (exceptMap_ok_forall2 h).length_eq.symm

theorem cleave_empty (pc : ProteinCleaver) (hla_alleles : List MHC) (num_proteins : ℤ)
    (draw : ℕ → ℕ → List ℕ) :
    pc.cleave [] hla_alleles num_proteins draw = .error "a must be non-empty" := by
  rw [ProteinCleaver.cleave, ProteinCleaver.cleaveWeights]
  rw [exceptMap]
  rfl

theorem cleave_ok_of_valid {pc : ProteinCleaver} {peptides : List Peptide}
    {hla_alleles : List MHC} {num_proteins : ℤ} {draw : ℕ → ℕ → List ℕ} {ws : List ℚ}
    (hw : pc.cleaveWeights peptides hla_alleles = .ok ws)
    (hnn : ∀ w ∈ ws, 0 ≤ w)
    (hpos : 0 < ws.sum)
    (hnum : 0 ≤ num_proteins) :
    pc.cleave peptides hla_alleles num_proteins draw =
      .ok ((draw peptides.length num_proteins.toNat).filterMap (fun j => peptides.get? j)) := by
  have hlenw : ws.length = peptides.length := cleaveWeights_ok_length hw
  have hwne : ws ≠ [] := by
    intro hc
    rw [hc] at hpos
    simp at hpos
  have hlen : peptides.length ≠ 0 := by
    intro hc
    apply hwne
    rw [← List.length_eq_zero, hlenw, hc]
  rw [ProteinCleaver.cleave, hw]
  show npChoice peptides num_proteins true (ws.map (fun w => w / ws.sum))
      (draw peptides.length num_proteins.toNat) = _
  rw [npChoice_ok_of_valid _ hlen (by simpa using hlenw)
    (fun x hx => by
      rcases List.mem_map.1 hx with ⟨w, hwmem, rfl⟩
      exact div_nonneg (hnn w hwmem) hpos.le)
    (by rw [sum_map_div]; exact div_self hpos.ne')
    hnum
    (fun hc => by cases hc)]

theorem cleave_zero_weights {pc : ProteinCleaver} {peptides : List Peptide}
    {hla_alleles : List MHC} {num_proteins : ℤ} {draw : ℕ → ℕ → List ℕ} {ws : List ℚ}
    (hne : peptides ≠ [])
    (hw : pc.cleaveWeights peptides hla_alleles = .ok ws)
    (hz : ∀ w ∈ ws, w = 0) :
    pc.cleave peptides hla_alleles num_proteins draw =
      .error "probabilities do not sum to 1" := by
  have hlenw : ws.length = peptides.length := cleaveWeights_ok_length hw
  have hlen : peptides.length ≠ 0 := fun hc => hne (List.length_eq_zero.1 hc)
  have hp0 : ∀ x ∈ ws.map (fun w => w / ws.sum), x = 0 := by
    intro x hx
    rcases List.mem_map.1 hx with ⟨w, hwmem, rfl⟩
    rw [hz w hwmem, zero_div]
  rw [ProteinCleaver.cleave, hw]
  show npChoice peptides num_proteins true (ws.map (fun w => w / ws.sum))
      (draw peptides.length num_proteins.toNat) = _
  unfold npChoice
  rw [if_neg hlen, if_neg (by simpa using hlenw),
    if_neg (by
      simp only [List.any_eq_true, decide_eq_true_eq, not_exists, not_and, not_lt]
      exact fun x hx => (hp0 x hx).ge),
    if_pos (by rw [List.sum_eq_zero hp0]; norm_num)]

/-! Characterization lemmas for the orchestrator stages. -/

theorem getBoundAll_ok_inv {sim : PeptideMHCBindingSimulator} {peptides : List Peptide}
    {hla_counts : List (MHC × ℕ)} {draw : ℕ → ℕ → ℕ → List ℕ} {L : List pMHC}
    (h : sim.get_bound_peptide_hla_complexes peptides hla_counts draw = .ok L) :
    ∃ parts, List.Forall₂ (fun (hc : MHC × ℕ) part =>
        ∃ k, sim._get_bound_peptides peptides hc.1 hc.2 (draw k) = .ok part) hla_counts parts ∧
      L = parts.flatten := by
  rw [PeptideMHCBindingSimulator.get_bound_peptide_hla_complexes] at h
  rcases exceptMapOkIff.1 h with ⟨parts, hp, rfl⟩
  exact ⟨parts, exceptMapIdx_ok_forall2 hp, rfl⟩

theorem getPresented_ok_inv {cf : CellFactory} {bound : List pMHC} {draw : ℕ → Bool}
    {l : List pMHC}
    (h : cf._get_presented_peptide_hla_complexes bound draw = .ok l) :
    l = selectIdx draw 0 bound := by
  simp only [CellFactory._get_presented_peptide_hla_complexes] at h
  by_cases hc : (bound.map (fun c => cf.presentation_scores.get_score c.hla c.peptide)).any
      (fun p => decide (p < 0 ∨ 1 < p)) = true
  · rw [if_pos hc] at h
    cases h
  · rw [if_neg hc] at h
    cases h
    rfl

theorem create_cell_ok_inv {cf : CellFactory} {state : CellFactoryState} {rs : RandomSource}
    {variant_map : List (String × SomaticVariant)} {hla_alleles : List MHC}
    {name : Option String} {cell : Cell} {state2 : CellFactoryState}
    (h : cf.create_cell state rs variant_map hla_alleles name = .ok (cell, state2)) :
    ∃ gsr sel bound presented,
      cf.genetic_simulator.simulate_all variant_map rs.dnaDraw rs.gpDraw = .ok gsr ∧
      cf._get_all_selected_peptides gsr hla_alleles rs.cleaveDraw = .ok sel ∧
      cf.binding_simulator.get_bound_peptide_hla_complexes sel
        (cf._get_hla_counts hla_alleles rs.hlaDraw) rs.bindDraw = .ok bound ∧
      cf._get_presented_peptide_hla_complexes bound rs.presentDraw = .ok presented ∧
      cell = ⟨gsr, sel, cf._get_hla_counts hla_alleles rs.hlaDraw, bound, presented, name⟩ := by
  rw [CellFactory.create_cell] at h
  rcases exceptBindOkIff.1 h with ⟨gsr, h1, h⟩
  rcases exceptBindOkIff.1 h with ⟨sel, h2, h⟩
  rcases exceptBindOkIff.1 h with ⟨bound, h3, h⟩
  rcases exceptMapOkIff.1 h with ⟨presented, h4, h5⟩
  refine ⟨gsr, sel, bound, presented, h1, h2, h3, h4, ?_⟩
  exact congrArg Prod.fst h5

/-! Concrete domain objects and sampling oracles used to instantiate the
theorems below. -/

def protX : Protein := ⟨"gene1", 5, 1⟩

def hlaX : MHC := ⟨"HLA-A", protX⟩

def pepA : Peptide := ⟨"AAA"⟩

def pepB : Peptide := ⟨"BBB"⟩

def pepC : Peptide := ⟨"CCC"⟩

def emptyCache : AlleleScoreCache := ⟨[], "Scores"⟩

def cacheX : AlleleScoreCache := ⟨[(("HLA-A", "AAA"), 1), (("HLA-A", "BBB"), 2)], "Scores"⟩

def cleaverX : ProteinCleaver := ⟨cacheX, "ProteinCleaver"⟩

def cleaverZero : ProteinCleaver := ⟨emptyCache, "ProteinCleaver"⟩

def binderX : PeptideMHCBindingSimulator := ⟨cacheX, "PeptideMHCBindingSimulator"⟩

def gsimX : GeneticSimulator := ⟨1, 1, "GeneticSimulator"⟩

/-- The concrete variant of the spec scenario: read counts `(5, 10, 5, 25)` and
no explicit VAF. -/
def vX : SomaticVariant := ⟨"var1", 5, 10, 5, 25, none, protX, [pepA, pepB]⟩

/-- A variant with an explicit VAF of `2` and RNA read counts `(5, 25)` whose
derived RNA VAF would differ from the explicit value. -/
def vVaf : SomaticVariant := ⟨"var2", 0, 0, 5, 25, some 2, protX, [pepA]⟩

/-- A variant with an explicit, valid VAF of `1`. -/
def vOne : SomaticVariant := ⟨"var4", 0, 0, 0, 0, some 1, protX, [pepA]⟩

/-- A second variant with an explicit, valid VAF of `1`, carrying `pepB`. -/
def vTwo : SomaticVariant := ⟨"var5", 0, 0, 0, 0, some 1, protX, [pepB]⟩

/-- A variant with zero read counts and an empty derived-peptide list. -/
def vNoPeptides : SomaticVariant := ⟨"var3", 0, 0, 0, 0, none, protX, []⟩

def cfX : CellFactory := ⟨gsimX, cleaverX, binderX, cacheX, 1, "CellFactory"⟩

/-- An index sampler drawing the first `size` pool positions. -/
def rangeDraw : ℕ → ℕ → List ℕ := fun _ size => List.range size

/-- An index sampler drawing position `0` a total of `size` times. -/
def replDraw : ℕ → ℕ → List ℕ := fun _ size => List.replicate size 0

/-- A family of `replDraw` samplers. -/
def drawZero : ℕ → ℕ → ℕ → List ℕ := fun _ _ size => List.replicate size 0

def rsX : RandomSource :=
  ⟨fun _ _ => 1, fun _ _ _ => 1, drawZero, fun _ _ _ => 2,
    fun _ _ size => List.range size, fun _ => true⟩

theorem rangeDraw_valid : ValidSampler rangeDraw false := by
  intro n size _ hsz
  refine ⟨List.length_range size, fun j hj => ?_, fun _ => List.nodup_range size⟩
  exact lt_of_lt_of_le (List.mem_range.1 hj) (hsz rfl)

theorem replDraw_valid : ValidSampler replDraw true := by
  intro n size hn _
  refine ⟨List.length_replicate size 0, fun j hj => ?_, fun hc => by cases hc⟩
  rw [List.eq_of_mem_replicate hj]
  exact hn

/-! Claim theorems. -/

/-- C2: whenever `GeneticSimulator.simulate` returns a result, the protein
count is `0` if the variant was not drawn into the DNA; if it was, the protein
count is the Gamma-Poisson draw at
`(expression_mean + expression_pseudocount, expression_var)` scaled by the RNA
VAF and truncated to an integer; and in the negative case the result does not
depend on the Gamma-Poisson sampling stage at all. -/
theorem claim_C2 (gs : GeneticSimulator) (variant : SomaticVariant) (dnaDraw : ℚ → ℕ)
    (gpDraw : ℚ → ℚ → ℕ) (r : GeneticSimulationResult)
    (hok : gs.simulate variant dnaDraw gpDraw = .ok r) :
    (r.variant_in_dna = false → r.protein_count = 0) ∧
    (r.variant_in_dna = true → r.protein_count =
      pyInt ((sample_gamma_poisson (variant.protein.expression_mean + gs.expression_pseudocount)
        variant.protein.expression_var gpDraw : ℚ) * variant.calculate_vaf_rna)) ∧
    (r.variant_in_dna = false → ∀ gpDraw2,
      gs.simulate variant dnaDraw gpDraw2 = .ok r) := by
  rw [GeneticSimulator.simulate] at hok
  rcases exceptMapOkIff.1 hok with ⟨b, hb, rfl⟩
  refine ⟨fun h => ?_, fun h => ?_, fun h gpDraw2 => ?_⟩
  · simp only at h ⊢
    rw [if_neg (by simp [h])]
  · simp only at h ⊢
    rw [if_pos (by simp [h])]
  · simp only at h
    rw [GeneticSimulator.simulate, hb]
    simp only [Except.map]
    rw [if_neg (by simp [h]), if_neg (by simp [h])]

/-- C2 witness: a concrete variant with VAF `1` and a DNA draw of `0` yields a
result with `protein_count = 0`, independently of the Gamma-Poisson oracle. -/
theorem claim_C2_witness :
    (⟨false, 0⟩ : GeneticSimulationResult).protein_count = 0 ∧
    gsimX.simulate vOne (fun _ => 0) (fun _ _ => 9) = .ok ⟨false, 0⟩ := by
  have h := claim_C2 gsimX vOne (fun _ => 0) (fun _ _ => 7) ⟨false, 0⟩ rfl
  exact ⟨h.1 rfl, h.2.2 rfl (fun _ _ => 9)⟩

/-- C3: for a non-empty pool and nonnegative binding scores, the per-allele
binding competition succeeds and emits exactly
`min num_hla_molecules peptides.length` complexes for this allele, drawn at
pairwise-distinct pool positions, each pairing a pool peptide with this
allele; an empty pool contributes zero complexes. -/
theorem claim_C3 (sim : PeptideMHCBindingSimulator) (peptides : List Peptide) (hla : MHC)
    (num_hla_molecules : ℕ) (draw : ℕ → ℕ → List ℕ)
    (hscores : ∀ pep ∈ peptides, 0 ≤ sim.binding_scores.get_score hla pep)
    (hdraw : ValidSampler draw false) :
    (peptides ≠ [] → ∃ l,
      sim._get_bound_peptides peptides hla num_hla_molecules draw = .ok l ∧
      l.length = min num_hla_molecules peptides.length ∧
      (draw peptides.length (min peptides.length num_hla_molecules)).Nodup ∧
      (∀ c ∈ l, c.peptide ∈ peptides ∧ c.hla = hla)) ∧
    (peptides = [] →
      sim._get_bound_peptides peptides hla num_hla_molecules draw = .ok []) := by
  constructor
  · intro hne
    have hlen0 : 0 < peptides.length := List.length_pos.2 hne
    have hvalid := hdraw peptides.length (min peptides.length num_hla_molecules) hlen0
      (fun _ => Nat.min_le_left _ _)
    have hcall := getBound_ok_of_valid sim peptides hla num_hla_molecules draw hne hscores
    refine ⟨_, hcall, ?_, hvalid.2.2 rfl, ?_⟩
    · rw [List.length_map, length_filterMap_get _ _ hvalid.2.1, hvalid.1, Nat.min_comm]
    · intro c hc
      rcases List.mem_map.1 hc with ⟨pep, hpep, rfl⟩
      exact ⟨mem_of_filterMap_get hpep, rfl⟩
  · intro h
    subst h
    rw [PeptideMHCBindingSimulator._get_bound_peptides, if_neg (by simp)]

/-- C3 witness: two peptides with nonnegative scores, one allele with three
molecules, and the in-range distinct-position sampler. -/
theorem claim_C3_witness : ∃ l,
    binderX._get_bound_peptides [pepA, pepB] hlaX 3 rangeDraw = .ok l ∧
    l.length = min 3 ([pepA, pepB] : List Peptide).length ∧
    (rangeDraw ([pepA, pepB] : List Peptide).length
      (min ([pepA, pepB] : List Peptide).length 3)).Nodup ∧
    (∀ c ∈ l, c.peptide ∈ [pepA, pepB] ∧ c.hla = hlaX) :=
  (claim_C3 binderX [pepA, pepB] hlaX 3 rangeDraw (by decide) rangeDraw_valid).1 (by decide)

/-- C4 (amended): calling `ProteinCleaver.cleave` with an empty candidate pool
does not return an empty list: the underlying `np.random.choice` rejects an
empty population, so the call fails, for every allele list, yield count and
sampling oracle. -/
theorem claim_C4 (pc : ProteinCleaver) (hla_alleles : List MHC) (num_proteins : ℤ)
    (draw : ℕ → ℕ → List ℕ) :
    pc.cleave [] hla_alleles num_proteins draw = .error "a must be non-empty" :=
  cleave_empty pc hla_alleles num_proteins draw

/-- C4 counterexample: at a concrete cleaver, allele list and yield count,
cleaving an empty pool produces an error, not the empty result list the claim
asserts. -/
theorem claim_C4_counterexample :
    cleaverX.cleave [] [hlaX] 3 replDraw = .error "a must be non-empty" ∧
    cleaverX.cleave [] [hlaX] 3 replDraw ≠ .ok [] := by
  constructor
  · rfl
  · intro hcon
    exact Except.noConfusion ((rfl :
      cleaverX.cleave [] [hlaX] 3 replDraw = .error "a must be non-empty").symm.trans hcon)

/-- C6: for a non-empty pool whose per-peptide cleavage weights (maximum
presentation score over the given alleles) are all zero, `cleave` fails during
sampling — the zero-total normalization yields an invalid distribution —
rather than returning a result; with nonnegative weights at least one of which
is non-zero (and a nonnegative yield), it succeeds. -/
theorem claim_C6 (pc : ProteinCleaver) (peptides : List Peptide) (hla_alleles : List MHC)
    (num_proteins : ℤ) (draw : ℕ → ℕ → List ℕ) (ws : List ℚ)
    (hne : peptides ≠ [])
    (hw : pc.cleaveWeights peptides hla_alleles = .ok ws) :
    ((∀ w ∈ ws, w = 0) → pc.cleave peptides hla_alleles num_proteins draw =
      .error "probabilities do not sum to 1") ∧
    ((∀ w ∈ ws, 0 ≤ w) → (∃ w ∈ ws, w ≠ 0) → 0 ≤ num_proteins →
      ∃ l, pc.cleave peptides hla_alleles num_proteins draw = .ok l) := by
  constructor
  · exact fun hz => cleave_zero_weights hne hw hz
  · rintro hnn ⟨w, hwmem, hwne⟩ hnum
    have hwpos : 0 < w := lt_of_le_of_ne (hnn w hwmem) (Ne.symm hwne)
    have hsum : 0 < ws.sum := lt_of_lt_of_le hwpos (List.single_le_sum hnn w hwmem)
    exact ⟨_, cleave_ok_of_valid hw hnn hsum hnum⟩

/-- C6 witness: with an empty score table both weights are zero and cleaving
fails; with positive scores it succeeds. -/
theorem claim_C6_witness :
    cleaverZero.cleave [pepA, pepB] [hlaX] 2 replDraw =
      .error "probabilities do not sum to 1" ∧
    ∃ l, cleaverX.cleave [pepA, pepB] [hlaX] 2 replDraw = .ok l := by
  constructor
  · exact (claim_C6 cleaverZero [pepA, pepB] [hlaX] 2 replDraw [0, 0]
      (by decide) rfl).1 (by decide)
  · exact (claim_C6 cleaverX [pepA, pepB] [hlaX] 2 replDraw [1, 2]
      (by decide) rfl).2 (by decide) ⟨1, by decide, by decide⟩ (by decide)

/-- C7: `calculate_vaf_dna` returns the explicit VAF when set, otherwise
`dna_alt / (dna_ref + dna_alt)`, and `0` when that denominator is zero; in
particular the spec's concrete variant with counts `(5, 10, 5, 25)` has DNA
VAF `10/15` and RNA VAF `25/30`. -/
theorem claim_C7 (v : SomaticVariant) :
    (∀ q, v.vaf = some q → v.calculate_vaf_dna = q) ∧
    (v.vaf = none → v.dna_ref_count + v.dna_alt_count = 0 → v.calculate_vaf_dna = 0) ∧
    (v.vaf = none → v.dna_ref_count + v.dna_alt_count ≠ 0 →
      v.calculate_vaf_dna = (v.dna_alt_count : ℚ) /
        ((v.dna_ref_count + v.dna_alt_count : ℕ) : ℚ)) ∧
    vX.calculate_vaf_dna = 10 / 15 ∧ vX.calculate_vaf_rna = 25 / 30 := by
  refine ⟨?_, ?_, ?_, ?_, ?_⟩
  · intro q hq
    rw [SomaticVariant.calculate_vaf_dna, hq]
  · intro hn hz
    rw [SomaticVariant.calculate_vaf_dna, hn]
    simp [hz]
  · intro hn hz
    rw [SomaticVariant.calculate_vaf_dna, hn]
    simp [hz]
  · rw [SomaticVariant.calculate_vaf_dna]
    norm_num [vX]
  · rw [SomaticVariant.calculate_vaf_rna]
    norm_num [vX]

/-- C7 witness: the explicit-VAF branch, the zero-denominator branch and the
read-count branch, each at a concrete variant, plus the spec's concrete
scenario. -/
theorem claim_C7_witness :
    vVaf.calculate_vaf_dna = 2 ∧
    vNoPeptides.calculate_vaf_dna = 0 ∧
    vX.calculate_vaf_dna = (vX.dna_alt_count : ℚ) /
      ((vX.dna_ref_count + vX.dna_alt_count : ℕ) : ℚ) ∧
    vX.calculate_vaf_dna = 10 / 15 ∧ vX.calculate_vaf_rna = 25 / 30 :=
  ⟨(claim_C7 vVaf).1 2 rfl,
   (claim_C7 vNoPeptides).2.1 rfl (by decide),
   (claim_C7 vX).2.2.1 rfl (by decide),
   (claim_C7 vX).2.2.2.1,
   (claim_C7 vX).2.2.2.2⟩

/-- C8: a pair absent from an `AlleleScoreCache` resolves to score `0`, both
through `get_score` and `get_score_strings`; a missing key is never an
error. -/
theorem claim_C8 (cache : AlleleScoreCache) (allele : MHC) (peptide : Peptide)
    (habs : ∀ entry ∈ cache.score_cache, entry.1 ≠ (allele.name, peptide.sequence)) :
    cache.get_score allele peptide = 0 ∧
    cache.get_score_strings allele.name peptide.sequence = 0 := by
  have hf : cache.score_cache.find?
      (fun q => decide (q.1 = (allele.name, peptide.sequence))) = none := by
    rw [List.find?_eq_none]
    intro x hx
    simpa using habs x hx
  constructor
  · rw [AlleleScoreCache.get_score, hf]
  · rw [AlleleScoreCache.get_score_strings, hf]

/-- C8 witness: the concrete cache holds no entry for peptide `"CCC"`, and the
lookups return `0`. -/
theorem claim_C8_witness :
    cacheX.get_score hlaX pepC = 0 ∧ cacheX.get_score_strings "HLA-A" "CCC" = 0 :=
  claim_C8 cacheX hlaX pepC (by decide)

/-- C10: when the explicit `vaf` field is set, `calculate_vaf_rna` returns it
and ignores the RNA read counts entirely, forcing the DNA VAF and RNA VAF to
coincide. -/
theorem claim_C10 (v : SomaticVariant) (q : ℚ) (hq : v.vaf = some q) :
    v.calculate_vaf_rna = q ∧
    v.calculate_vaf_dna = v.calculate_vaf_rna ∧
    (∀ a b : ℕ, ({ v with rna_ref_count := a, rna_alt_count := b } :
      SomaticVariant).calculate_vaf_rna = q) := by
  refine ⟨?_, ?_, ?_⟩
  · rw [SomaticVariant.calculate_vaf_rna, hq]
  · rw [SomaticVariant.calculate_vaf_rna, SomaticVariant.calculate_vaf_dna, hq]
  · intro a b
    rw [SomaticVariant.calculate_vaf_rna]
    simp only
    rw [hq]

/-- C10 witness: a variant with explicit VAF `2` and RNA counts `(5, 25)`
returns RNA VAF `2`, equal to its DNA VAF, whatever its RNA counts. -/
theorem claim_C10_witness :
    vVaf.calculate_vaf_rna = 2 ∧
    vVaf.calculate_vaf_dna = vVaf.calculate_vaf_rna ∧
    ({ vVaf with rna_ref_count := 7, rna_alt_count := 70 } :
      SomaticVariant).calculate_vaf_rna = 2 := by
  have h := claim_C10 vVaf 2 rfl
  exact ⟨h.1, h.2.1, h.2.2 7 70⟩

/-- C1: for every cell produced by `create_cell` (with a well-formed binding
sampler), the presented complexes are a sub-multiset of the bound complexes,
every peptide of a bound or presented complex comes from the cell's candidate
pool `selected_peptides`, every allele of a bound or presented complex or of
`hla_counts` is one of the input alleles, and
`len presented ≤ len bound ≤ sum of hla_counts values`. -/
theorem claim_C1 (cf : CellFactory) (state : CellFactoryState) (rs : RandomSource)
    (variant_map : List (String × SomaticVariant)) (hla_alleles : List MHC)
    (name : Option String) (cell : Cell) (state2 : CellFactoryState)
    (hok : cf.create_cell state rs variant_map hla_alleles name = .ok (cell, state2))
    (hbind : ValidSamplerFamily rs.bindDraw false) :
    ((cell.presented_peptide_hlas : Multiset pMHC) ≤
      (cell.bound_peptide_hlas : Multiset pMHC)) ∧
    (∀ c ∈ cell.bound_peptide_hlas,
      c.peptide ∈ cell.selected_peptides ∧ c.hla ∈ hla_alleles) ∧
    (∀ c ∈ cell.presented_peptide_hlas,
      c.peptide ∈ cell.selected_peptides ∧ c.hla ∈ hla_alleles) ∧
    (∀ q ∈ cell.hla_counts, q.1 ∈ hla_alleles) ∧
    cell.presented_peptide_hlas.length ≤ cell.bound_peptide_hlas.length ∧
    cell.bound_peptide_hlas.length ≤ (cell.hla_counts.map (fun q => q.2)).sum := by
  obtain ⟨gsr, sel, bound, presented, h1, h2, h3, h4, hcell⟩ := create_cell_ok_inv hok
  subst hcell
  have hkeys : ∀ q ∈ cf._get_hla_counts hla_alleles rs.hlaDraw, q.1 ∈ hla_alleles := by
    intro q hq
    rw [CellFactory._get_hla_counts] at hq
    rcases pyDict_key_mem _ _ q hq with ⟨w, hw⟩
    rcases mapIdxFrom_mem hw with ⟨j, a, ha, heq⟩
    have hqa : q.1 = a := by simpa using congrArg Prod.fst heq
    rw [hqa]
    exact ha
  obtain ⟨parts, hparts, hflat⟩ := getBoundAll_ok_inv h3
  subst hflat
  have hpres : presented = selectIdx rs.presentDraw 0 parts.flatten := getPresented_ok_inv h4
  have hsub : List.Sublist presented parts.flatten := by
    rw [hpres]
    exact selectIdx_sublist _ 0 _
  have hmemb : ∀ c ∈ parts.flatten, c.peptide ∈ sel ∧ c.hla ∈ hla_alleles := by
    intro c hc
    rcases List.mem_flatten.1 hc with ⟨part, hpartmem, hcpart⟩
    rcases forall2_mem_right hparts hpartmem with ⟨hcq, hq, k, hk⟩
    have hm := getBound_mem hk c hcpart
    refine ⟨hm.1, ?_⟩
    rw [hm.2]
    exact hkeys hcq hq
  refine ⟨Multiset.coe_le.2 hsub.subperm, hmemb, fun c hc => hmemb c (hsub.subset hc), hkeys,
    hsub.length_le, ?_⟩
  apply flatten_length_le_sum
  refine List.Forall₂.imp ?_ hparts
  rintro hc part ⟨k, hk⟩
  exact getBound_length (hbind k) hk

/-- The cell produced by the concrete empty run used as witness. -/
def cellX : Cell := ⟨[], [], [(hlaX, 2)], [], [], some "cell"⟩

/-- The factory state left behind by the concrete empty run used as witness. -/
def stateX : CellFactoryState := ⟨some [], some [], some [(hlaX, 2)], some [], some []⟩

/-- C1 witness: a concrete successful `create_cell` run (empty variant map,
one allele) satisfying all the invariants. -/
theorem claim_C1_witness :
    ((cellX.presented_peptide_hlas : Multiset pMHC) ≤
      (cellX.bound_peptide_hlas : Multiset pMHC)) ∧
    (∀ c ∈ cellX.bound_peptide_hlas,
      c.peptide ∈ cellX.selected_peptides ∧ c.hla ∈ [hlaX]) ∧
    (∀ c ∈ cellX.presented_peptide_hlas,
      c.peptide ∈ cellX.selected_peptides ∧ c.hla ∈ [hlaX]) ∧
    (∀ q ∈ cellX.hla_counts, q.1 ∈ [hlaX]) ∧
    cellX.presented_peptide_hlas.length ≤ cellX.bound_peptide_hlas.length ∧
    cellX.bound_peptide_hlas.length ≤ (cellX.hla_counts.map (fun q => q.2)).sum :=
  claim_C1 cfX CellFactoryState.initial rsX [] [hlaX] (some "cell") cellX stateX rfl
    (fun _ => rangeDraw_valid)

/-- C5 (amended): the cleaver is called for every variant of the results
mapping, with yield equal to its protein count; under valid cleavage inputs
the candidate pool is the concatenation of the per-variant cleavage outputs,
in which exactly the variants with positive protein count contribute (a
protein count of zero contributes the empty list, although the cleaver is
still invoked on that variant). -/
theorem claim_C5 (cf : CellFactory) (results : List (SomaticVariant × GeneticSimulationResult))
    (hla_alleles : List MHC) (draw : ℕ → ℕ → ℕ → List ℕ)
    (hvalid : ValidSamplerFamily draw true)
    (hok : ∀ vr ∈ results, ∃ ws,
      cf.protein_cleaver.cleaveWeights vr.1.peptides hla_alleles = .ok ws ∧
      (∀ w ∈ ws, 0 ≤ w) ∧ 0 < ws.sum)
    (hcount : ∀ vr ∈ results, 0 ≤ vr.2.protein_count) :
    cf._get_all_selected_peptides results hla_alleles draw =
      .ok ((mapIdxFrom (fun i vr =>
        if 0 < vr.2.protein_count then
          (draw i vr.1.peptides.length vr.2.protein_count.toNat).filterMap
            (fun j => vr.1.peptides.get? j)
        else []) 0 results).flatten) ∧
    (∀ vr ∈ results, vr.2.protein_count = 0 → ∀ k,
      cf._get_selected_peptides vr.1 vr.2 hla_alleles (draw k) = .ok []) := by
  have hmain : ∀ vr ∈ results, ∀ k,
      cf._get_selected_peptides vr.1 vr.2 hla_alleles (draw k) = .ok
        (if 0 < vr.2.protein_count then
          (draw k vr.1.peptides.length vr.2.protein_count.toNat).filterMap
            (fun j => vr.1.peptides.get? j)
        else []) := by
    intro vr hvr k
    rcases hok vr hvr with ⟨ws, hw, hnn, hpos⟩
    have hlenw := cleaveWeights_ok_length hw
    have hwne : ws ≠ [] := by
      intro hc
      rw [hc] at hpos
      simp at hpos
    have hlen0 : 0 < vr.1.peptides.length := by
      rcases Nat.eq_zero_or_pos vr.1.peptides.length with hz | hp
      · exact absurd (List.length_eq_zero.1 (hlenw.trans hz)) hwne
      · exact hp
    have h0 := @cleave_ok_of_valid _ _ _ _ (draw k) _ hw hnn hpos (hcount vr hvr)
    rw [CellFactory._get_selected_peptides, h0]
    by_cases hc : 0 < vr.2.protein_count
    · rw [if_pos hc]
    · rw [if_neg hc]
      have hz : vr.2.protein_count = 0 := le_antisymm (not_lt.1 hc) (hcount vr hvr)
      have hv := hvalid k vr.1.peptides.length vr.2.protein_count.toNat hlen0
        (fun hq => by cases hq)
      have hzn : vr.2.protein_count.toNat = 0 := by rw [hz]; rfl
      rw [hzn] at hv ⊢
      rw [List.length_eq_zero.1 hv.1]
      rfl
  constructor
  · rw [CellFactory._get_all_selected_peptides,
      exceptMapIdx_ok_of_mem (fun vr hvr k => hmain vr hvr k) 0]
    rfl
  · intro vr hvr hz k
    have h := hmain vr hvr k
    rw [hz] at h
    simpa using h

/-- C5 counterexample: a variant with protein count `0` and an empty peptide
list is still processed by the cleaver, making `_get_all_selected_peptides`
fail, whereas the claim says such a variant is skipped and the pool is
empty. -/
theorem claim_C5_counterexample :
    cfX._get_all_selected_peptides [(vNoPeptides, ⟨false, 0⟩)] [hlaX] drawZero =
      .error "a must be non-empty" ∧
    cfX._get_all_selected_peptides [(vNoPeptides, ⟨false, 0⟩)] [hlaX] drawZero ≠ .ok [] := by
  constructor
  · rfl
  · intro hcon
    exact Except.noConfusion ((rfl :
      cfX._get_all_selected_peptides [(vNoPeptides, ⟨false, 0⟩)] [hlaX] drawZero =
        .error "a must be non-empty").symm.trans hcon)

/-- The genetic-simulation results of the concrete run used as C5 witness. -/
def resultsW : List (SomaticVariant × GeneticSimulationResult) :=
  [(vOne, ⟨true, 2⟩), (vTwo, ⟨false, 0⟩)]

/-- C5 witness: two variants with protein counts `2` and `0`; the pool is the
flattened per-variant cleavage output and the zero-count variant contributes
the empty list. -/
theorem claim_C5_witness :
    cfX._get_all_selected_peptides resultsW [hlaX] drawZero =
      .ok ((mapIdxFrom (fun i vr =>
        if 0 < vr.2.protein_count then
          (drawZero i vr.1.peptides.length vr.2.protein_count.toNat).filterMap
            (fun j => vr.1.peptides.get? j)
        else []) 0 resultsW).flatten) ∧
    cfX._get_selected_peptides vTwo ⟨false, 0⟩ [hlaX] (drawZero 1) = .ok [] := by
  have h := claim_C5 cfX resultsW [hlaX] drawZero (fun _ => replDraw_valid) ?hok ?hcount
  · exact ⟨h.1, h.2 (vTwo, ⟨false, 0⟩) (by simp [resultsW]) rfl 1⟩
  case hok =>
    intro vr hvr
    simp only [resultsW, List.mem_cons, List.not_mem_nil, or_false] at hvr
    rcases hvr with rfl | rfl
    · exact ⟨[1], rfl, by decide, by simp⟩
    · exact ⟨[2], rfl, by decide, by simp⟩
  case hcount =>
    intro vr hvr
    simp only [resultsW, List.mem_cons, List.not_mem_nil, or_false] at hvr
    rcases hvr with rfl | rfl
    · decide
    · decide

/-- C9 (amended): `create_cell` never reads the factory's pre-call cached
attributes — each is written before it is read — so its outcome (both the
returned cell and the state it leaves on the factory) is independent of the
state left behind by earlier constructions. -/
theorem claim_C9 (cf : CellFactory) (rs : RandomSource)
    (variant_map : List (String × SomaticVariant)) (hla_alleles : List MHC)
    (name : Option String) (s1 s2 : CellFactoryState) :
    cf.create_cell s1 rs variant_map hla_alleles name =
      cf.create_cell s2 rs variant_map hla_alleles name := rfl

/-- C9 counterexample: after a concrete successful `create_cell` run the
factory's cached attributes are all set, so the factory object is *not*
unchanged by the call, contrary to the claim. -/
theorem claim_C9_counterexample :
    cfX.create_cell CellFactoryState.initial rsX [] [hlaX] (some "cell") =
      .ok (cellX, stateX) ∧
    stateX ≠ CellFactoryState.initial := by
  constructor
  · rfl
  · decide

end NeoagDT
